import Mathlib

/-!
Verification development for `epicsArchiveConfig.py` (sbwebb/Python-Devel):
a one-shot converter from an EPICS database text file to an archive-engine
XML configuration.  The Python source is shallowly embedded below:

* the three regular expressions of the source (`ARCHPATTERN`,
  `RECORD_SIGNATURE`, `ATTRIBUTE_SIGNATURE`) are translated into
  executable matching functions that reproduce Python `re` semantics
  (leftmost anchored match, greedy and lazy quantifiers with
  backtracking priority) for exactly those three patterns;
* the classes `EpicsRecord`, `EpicsRecordAttributes`, `ArchiveAttribute`
  become an inductive attribute type plus a record structure;
* the module-level parse loop (lines 225-267 of the source) becomes a
  line-by-line state machine folded over the list of input lines, with
  the `StopIteration`-caught-and-exit-2 behaviour modelled as `.error`;
* the XML build (lines 294-363), `indent`, and the `ElementTree`
  serializer become pure tree constructions and a string renderer;
  an uncaught `AttributeError` (e.g. `None.lower()`) is modelled as
  `.error` of the channel expansion.
-/

namespace EpicsArchiveConfig

/-- Python `\s` character class: space, tab, newline, carriage return,
vertical tab (11), form feed (12). -/
def wsp (c : Char) : Bool :=
  c = ' ' || c = '\t' || c = '\n' || c = '\r' || c = Char.ofNat 11 || c = Char.ofNat 12

/-- The regex character class `[0-5]` used for the leading digit of each
period component in `ARCHPATTERN`. -/
def isDigit05 (c : Char) : Bool := '0' ≤ c && c ≤ '5'

/-- The regex character class `[0-9]` used for the trailing digit of each
period component in `ARCHPATTERN`. -/
def isDigit09 (c : Char) : Bool := '0' ≤ c && c ≤ '9'

/-- Python `str.lower()` restricted to ASCII, as applied to the parsed
sample mode at XML-build time (source lines 314 and 329). -/
def pyLower (s : String) : String := String.mk (s.toList.map Char.toLower)

/-- Python `str.rstrip(chars)`: remove the maximal trailing run of
characters drawn from the set `cs` (NOT suffix removal). -/
def pyRstrip (cs : List Char) (s : String) : String :=
  String.mk ((s.toList.reverse.dropWhile (fun c => cs.contains c)).reverse)

/-- Helper for Python `str.split()` (split on whitespace runs, no empty
tokens): `cur` is the reversed chars of the token being accumulated. -/
def splitWhitespaceAux : List Char → List Char → List String
  | [], cur => if cur.isEmpty then [] else [String.mk cur.reverse]
  | c :: rest, cur =>
    if wsp c then
      if cur.isEmpty then splitWhitespaceAux rest []
      else String.mk cur.reverse :: splitWhitespaceAux rest []
    else splitWhitespaceAux rest (c :: cur)

/-- Python `str.split()` with no argument, as used on the optional
properties capture (source line 160). -/
def splitWhitespace (s : String) : List String := splitWhitespaceAux s.toList []

/-- `re.search` for a single literal character, as used on the brace
tokens in the parse loop (source lines 248 and 251). -/
def hasChar (c : Char) (line : String) : Bool := line.toList.contains c

/-!  ### The tail `"?\s*\)` / `"\s*\)` of the two signature regexes  -/

/-- Does `\s*\)` match at the head of `t`?  (`\s*` is greedy and a
whitespace character can never be `)`, so this is deterministic.) -/
def headCloseParen (t : List Char) : Bool :=
  match t.dropWhile wsp with
  | ')' :: _ => true
  | _ => false

/-- The lazy capture `(?P<r_name>.*?)` of `RECORD_SIGNATURE` followed by
`"?\s*\)`: return the shortest prefix (the lazy match) after which the
optional quote, optional whitespace and the closing parenthesis match.
`.` does not match a newline, so the scan stops at `\n`. -/
def rnameScan : List Char → Option (List Char)
  | [] => none
  | c :: rest =>
    if (c = '"' && headCloseParen rest) || headCloseParen (c :: rest) then some []
    else if c = '\n' then none
    else (rnameScan rest).map (c :: ·)

/-- The lazy capture `(?P<attr_value>.*?)` of `ATTRIBUTE_SIGNATURE`
followed by the mandatory `"\s*\)`. -/
def attrValueScan : List Char → Option (List Char)
  | [] => none
  | c :: rest =>
    if c = '"' && headCloseParen rest then some []
    else if c = '\n' then none
    else (attrValueScan rest).map (c :: ·)

/-- The part of `RECORD_SIGNATURE` after the comma:
`\s*"?(?P<r_name>.*?)"?\s*\)`.  The leading `\s*` is greedy and
deterministic here; the optional opening quote `"?` greedily consumes a
quote when present, falling back to not consuming it (Python
backtracking priority). -/
def recTail (s : List Char) : Option (List Char) :=
  match s.dropWhile wsp with
  | [] => none
  | c :: u =>
    if c = '"' then (rnameScan u).orElse (fun _ => rnameScan (c :: u))
    else rnameScan (c :: u)

/-- The part of `ATTRIBUTE_SIGNATURE` after the comma:
`\s*"(?P<attr_value>.*?)"\s*\)` (the opening quote is mandatory). -/
def attrTail (s : List Char) : Option (List Char) :=
  match s.dropWhile wsp with
  | [] => none
  | c :: u => if c = '"' then attrValueScan u else none

/-- All decompositions `s = pre ++ ',' :: post` with `pre` free of
newlines (the greedy `.*` before the literal comma cannot cross a
newline), in ascending order of `pre` length. -/
def commaSplitsAsc : List Char → List (List Char × List Char)
  | [] => []
  | c :: rest =>
    (if c = ',' then [(([] : List Char), rest)] else []) ++
      (if c = '\n' then []
       else (commaSplitsAsc rest).map (fun p => (c :: p.1, p.2)))

/-- Backtracking over the candidate splits of a greedy `.*` followed by
a literal comma: try each split (longest `pre` first, i.e. the list must
be given in descending order) and keep the first one whose continuation
matches. -/
def firstSplit {α : Type} : List (List Char × List Char) → (List Char → Option α) →
    Option (List Char × α)
  | [], _ => none
  | (pre, post) :: rest, f =>
    match f post with
    | some a => some (pre, a)
    | none => firstSplit rest f

/-- Case-insensitive literal word match (the `[mM][oO]...` classes of
`ARCHPATTERN`): `tmpl` is the lowercase template; returns the raw
matched input characters and the rest. -/
def matchWordCI : List Char → List Char → Option (List Char × List Char)
  | [], s => some ([], s)
  | _ :: _, [] => none
  | t :: ts, c :: cs =>
    if c = t || c = t.toUpper then
      (matchWordCI ts cs).map (fun p => (c :: p.1, p.2))
    else none

/-- The mode alternation of `ARCHPATTERN`:
`[mM][oO][nN][iI][tT][oO][rR]|[sS][cC][aA][nN]` (monitor tried first;
the two alternatives start with distinct letters, so committing to the
one whose first character matches is equivalent to full backtracking). -/
def matchMode (s : List Char) : Option (List Char × List Char) :=
  (matchWordCI "monitor".toList s).orElse (fun _ => matchWordCI "scan".toList s)

/-- The period group of `ARCHPATTERN`:
`[0-5][0-9]:[0-5][0-9]:[0-5][0-9]`. -/
def matchPeriod : List Char → Option (List Char × List Char)
  | a :: b :: c :: d :: e :: f :: g :: h :: rest =>
    if isDigit05 a && isDigit09 b && c = ':' && isDigit05 d && isDigit09 e &&
        f = ':' && isDigit05 g && isDigit09 h then
      some ([a, b, c, d, e, f, g, h], rest)
    else none
  | _ => none

/-- The greedy optional comma `,?` in the tail of `ARCHPATTERN`. -/
def archSkipComma (s5 : List Char) : List Char :=
  match s5 with
  | ',' :: r => r
  | _ => s5

/-- The tail of `ARCHPATTERN` after the period group:
`\s*,?\s*(?P<rec_props>.*)?` — greedy whitespace, an optional comma,
greedy whitespace, then the greedy `.*` capture (which stops at a
newline and always participates, so the capture is a string, possibly
empty). -/
def archAfterPeriod (s4 : List Char) : String :=
  String.mk (((archSkipComma (s4.dropWhile wsp)).dropWhile wsp).takeWhile (· ≠ '\n'))

/-- The part of `ARCHPATTERN` after the mode group:
`\s*,\s*(?P<period>...)` followed by the tail; returns the period and
rec_props captures. -/
def archAfterMode (s1 : List Char) : Option (String × String) :=
  match s1.dropWhile wsp with
  | ',' :: s2 =>
    match matchPeriod (s2.dropWhile wsp) with
    | none => none
    | some (pd, s4) => some (String.mk pd, archAfterPeriod s4)
  | _ => none

/-- `ARCHPATTERN.match(attr_value)` (source line 141):
`\s*(?P<mode>monitor-or-scan-ci)\s*,\s*(?P<period>...)\s*,?\s*(?P<rec_props>.*)?`
— returns the three captures (mode raw-cased, period, rec_props).
Every quantifier here is deterministic: whitespace never overlaps the
literals that follow, and the final greedy `.*` always succeeds, so no
backtracking is needed. -/
def ARCHPATTERN_match (v : String) : Option (String × String × String) :=
  match matchMode (v.toList.dropWhile wsp) with
  | none => none
  | some (md, s1) =>
    match archAfterMode s1 with
    | none => none
    | some (pd, pr) => some (String.mk md, pd, pr)

/-- `RECORD_SIGNATURE.match(line)` (source line 206):
`\s*record\s*\((?P<r_type>.*),\s*"?(?P<r_name>.*?)"?\s*\)`.
The greedy `.*` before the comma is resolved by trying the comma
positions from rightmost to leftmost; note that the `r_type` capture is
raw text (its surrounding whitespace is NOT stripped by the pattern). -/
def RECORD_SIGNATURE_match (line : String) : Option (String × String) :=
  if "record".toList.isPrefixOf (line.toList.dropWhile wsp) then
    match (((line.toList.dropWhile wsp)).drop 6).dropWhile wsp with
    | '(' :: s2 =>
      match firstSplit (commaSplitsAsc s2).reverse recTail with
      | some (pre, nm) => some (String.mk pre, String.mk nm)
      | none => none
    | _ => none
  else none

/-- `ATTRIBUTE_SIGNATURE.match(line)` (source line 207):
`\s*(?P<attr_type>(field|info))\s*\(\s*(?P<attr_name>.*),\s*"(?P<attr_value>.*?)"\s*\)`.
Returns (attr_type, attr_name, attr_value); `attr_name` is raw text up
to the chosen comma (whitespace not stripped). -/
def ATTRIBUTE_SIGNATURE_match (line : String) : Option (String × String × String) :=
  let s := line.toList.dropWhile wsp
  let kind : Option (String × List Char) :=
    if "field".toList.isPrefixOf s then some ("field", s.drop 5)
    else if "info".toList.isPrefixOf s then some ("info", s.drop 4)
    else none
  match kind with
  | none => none
  | some (t, s1) =>
    match s1.dropWhile wsp with
    | '(' :: s2 =>
      match firstSplit (commaSplitsAsc (s2.dropWhile wsp)).reverse attrTail with
      | some (pre, v) => some (t, String.mk pre, String.mk v)
      | none => none
    | _ => none

/-!  ### Data model  -/

/-- The attribute classes of the source as a tagged union:
`plain` is `EpicsRecordAttributes` (source lines 73-114) and `archive`
is its subclass `ArchiveAttribute` (source lines 118-203), which
additionally holds the `mode`, `period` and `properties` slots, each
initialised to `None` (modelled as `none`). -/
inductive EpicsAttr where
  | plain (attr_type attr_name attr_value : String)
  | archive (attr_type attr_name attr_value : String)
      (mode period : Option String) (properties : Option (List String))
  deriving Repr, DecidableEq

/-- `EpicsRecordAttributes.get_attribute_type`. -/
def EpicsAttr.get_attribute_type : EpicsAttr → String
  | .plain t _ _ => t
  | .archive t _ _ _ _ _ => t

/-- `EpicsRecordAttributes.get_attribute_name`. -/
def EpicsAttr.get_attribute_name : EpicsAttr → String
  | .plain _ n _ => n
  | .archive _ n _ _ _ _ => n

/-- Is this attribute an instance of the subclass `ArchiveAttribute`
(and hence does it carry the `mode`/`period`/`properties` slots that
`get_sample_mode`, `get_sample_period` and `get_sample_properties`
read)? -/
def EpicsAttr.isArchive : EpicsAttr → Bool
  | .plain _ _ _ => false
  | .archive _ _ _ _ _ _ => true

/-- `ArchiveAttribute.get_sample_mode`; on a plain attribute the Python
method does not exist, modelled as `none`. -/
def EpicsAttr.get_sample_mode : EpicsAttr → Option String
  | .plain _ _ _ => none
  | .archive _ _ _ md _ _ => md

/-- `ArchiveAttribute.get_sample_period`; `none` is Python `None`. -/
def EpicsAttr.get_sample_period : EpicsAttr → Option String
  | .plain _ _ _ => none
  | .archive _ _ _ _ pd _ => pd

/-- `ArchiveAttribute.get_sample_properties`; `none` is the
no-properties sentinel (Python `None`), distinguished from `some []`. -/
def EpicsAttr.get_sample_properties : EpicsAttr → Option (List String)
  | .plain _ _ _ => none
  | .archive _ _ _ _ _ props => props

/-- `ArchiveAttribute.get_sample_properties_length` (source lines
189-196): the length of the properties list, 0 for the sentinel. -/
def EpicsAttr.get_sample_properties_length : EpicsAttr → Nat
  | .plain _ _ _ => 0
  | .archive _ _ _ _ _ props =>
    match props with
    | some l => l.length
    | none => 0

/-- `EpicsRecord` (source lines 22-69): a type, a name, and an ordered
list of attributes. -/
structure EpicsRecord where
  rec_type : String
  rec_name : String
  rec_attributes : List EpicsAttr
  deriving Repr, DecidableEq

/-- `ArchiveAttribute.__init__` (source lines 124-164): run
`ARCHPATTERN` on the value; if it matches and both mandatory groups are
(Python-truthy, i.e. nonempty) the mode and period are stored raw and a
nonempty `rec_props` capture is whitespace-split into the properties
list; otherwise an error is printed and all three slots stay `None`. -/
def ArchiveAttribute_init (attr_type attr_name attr_value : String) : EpicsAttr :=
  match ARCHPATTERN_match attr_value with
  | some (md, pd, props) =>
    if md ≠ "" ∧ pd ≠ "" then
      .archive attr_type attr_name attr_value (some md) (some pd)
        (if props ≠ "" then some (splitWhitespace props) else none)
    else .archive attr_type attr_name attr_value none none none
  | none => .archive attr_type attr_name attr_value none none none

/-- Was a policy-parse error reported (printed) by
`ArchiveAttribute.__init__` for this value?  (Source lines 162 and
164.) -/
def archiveParseErrorReported (attr_value : String) : Bool :=
  match ARCHPATTERN_match attr_value with
  | some (md, pd, _) => !(md ≠ "" ∧ pd ≠ "" : Bool)
  | none => true

/-- One body line inside the close-brace loop (source lines 253-260):
match `ATTRIBUTE_SIGNATURE`; a `field` line appends a plain attribute,
an `info` line whose name is exactly `archive` appends an
`ArchiveAttribute`; anything else is skipped. -/
def stepBody (line : String) (attrs : List EpicsAttr) : List EpicsAttr :=
  match ATTRIBUTE_SIGNATURE_match line with
  | some (t, n, v) =>
    if t = "field" then attrs ++ [.plain t n v]
    else if t = "info" ∧ n = "archive" then attrs ++ [ArchiveAttribute_init t n v]
    else attrs
  | none => attrs

/-- The control state of the parse loop (source lines 229-262): `top`
is the outer `for` loop scanning for a record signature; `seekOpen` is
the first inner `while` (looking for the opening brace); `inBody` is
the second inner `while` (consuming body lines until the closing
brace). -/
inductive PState where
  | top
  | seekOpen (r : EpicsRecord)
  | inBody (r : EpicsRecord)
  deriving Repr, DecidableEq

/-- One line of the parse loop.  In `top`, a `RECORD_SIGNATURE` match
opens a record; the signature line itself is then examined for an
opening brace (and, if one is found, for a closing brace) but is never
attribute-matched.  In `seekOpen`, lines are consumed unexamined until
one contains an opening brace.  In `inBody`, each fetched line is
attribute-matched and then tested for the closing brace (so the closing
line itself is attribute-matched first, exactly as in the source, where
the loop body runs before the condition is re-checked). -/
def stepLine : PState × List EpicsRecord → String → PState × List EpicsRecord
  | (.top, acc), line =>
    match RECORD_SIGNATURE_match line with
    | none => (.top, acc)
    | some (t, n) =>
      if hasChar '{' line then
        if hasChar '}' line then (.top, acc ++ [⟨t, n, []⟩])
        else (.inBody ⟨t, n, []⟩, acc)
      else (.seekOpen ⟨t, n, []⟩, acc)
  | (.seekOpen r, acc), line =>
    if hasChar '{' line then
      if hasChar '}' line then (.top, acc ++ [r]) else (.inBody r, acc)
    else (.seekOpen r, acc)
  | (.inBody r, acc), line =>
    if hasChar '}' line then
      (.top, acc ++ [⟨r.rec_type, r.rec_name, stepBody line r.rec_attributes⟩])
    else (.inBody ⟨r.rec_type, r.rec_name, stepBody line r.rec_attributes⟩, acc)

/-- The whole parse (source lines 225-267): fold the state machine over
the input lines.  Reaching end of input inside either inner loop makes
`f.next()` raise `StopIteration`, which the `except` clause turns into
a diagnostic and `sys.exit(2)` — modelled as `.error` (the records
collected so far are discarded and no output is written). -/
def parseFile (lines : List String) : Except String (List EpicsRecord) :=
  match lines.foldl stepLine (.top, []) with
  | (.top, acc) => .ok acc
  | (_, _) => .error "StopIteration"

/-- `outputFilename` (source line 216):
`str(sys.argv[1]).rstrip('.db') + "_arch.xml"`.  Note that `rstrip`
removes trailing characters drawn from the SET consisting of the dot,
`d` and `b`, not the literal suffix `.db`. -/
def outputFilename (input : String) : String :=
  pyRstrip ['.', 'd', 'b'] input ++ "_arch.xml"

/-!  ### Channel expansion (source lines 294-333)  -/

/-- One output `channel` element: its name text, its period text
(`None` allowed — the period element is then empty), and the tag of the
mode element (already lowercased). -/
structure Channel where
  name : String
  period : Option String
  mode : String
  deriving Repr, DecidableEq

/-- Expansion of one attribute of a record (the body of the loop at
source lines 302-332).  Attributes whose `attr_type` is not `info` are
skipped.  For an `info` attribute the code calls
`get_sample_properties` — an uncaught `AttributeError` if the attribute
is a plain `EpicsRecordAttributes` — and then either emits one bare
channel (properties sentinel) or one channel per property; in both
cases `get_sample_mode().lower()` raises an uncaught `AttributeError`
when the mode slot is `None` (a failed `ARCHPATTERN` parse), modelled
as `.error`. -/
def expandAttr (recName : String) (a : EpicsAttr) : Except String (List Channel) :=
  match a with
  | .plain t _ _ =>
    if t = "info" then .error "AttributeError: get_sample_properties" else .ok []
  | .archive t _ _ md pd props =>
    if t = "info" then
      match props with
      | none =>
        match md with
        | none => .error "AttributeError: NoneType has no attribute lower"
        | some m => .ok [⟨recName, pd, pyLower m⟩]
      | some ps =>
        match md with
        | none =>
          if ps.isEmpty then .ok []
          else .error "AttributeError: NoneType has no attribute lower"
        | some m => .ok (ps.map (fun p => ⟨recName ++ "." ++ p, pd, pyLower m⟩))
    else .ok []

/-- Expand the attributes of one record in order; the first uncaught
exception aborts the whole build. -/
def expandAttrs (recName : String) : List EpicsAttr → Except String (List Channel)
  | [] => .ok []
  | a :: rest =>
    match expandAttr recName a with
    | .error e => .error e
    | .ok cs =>
      match expandAttrs recName rest with
      | .error e => .error e
      | .ok cs2 => .ok (cs ++ cs2)

/-- Expand all records in order (the channel-building double loop at
source lines 301-332). -/
def expandRecords : List EpicsRecord → Except String (List Channel)
  | [] => .ok []
  | r :: rs =>
    match expandAttrs r.rec_name r.rec_attributes with
    | .error e => .error e
    | .ok cs =>
      match expandRecords rs with
      | .error e => .error e
      | .ok cs2 => .ok (cs ++ cs2)

/-!  ### XML tree, `indent`, and the ElementTree serializer  -/

/-- An `xml.etree.ElementTree.Element` as used by the source: a tag, an
optional text, children, and an optional tail (the source sets no
attributes on any element). -/
inductive XElem where
  | mk (tag : String) (text : Option String) (children : List XElem) (tail : Option String)

/-- Python truthiness test `not x or not x.strip()` on an optional
string: `None`, empty, or all-whitespace. -/
def wsOrNone : Option String → Bool
  | none => true
  | some s => s.toList.all wsp

/-- The fix-up after the child loop in `indent`: the loop variable ends
bound to the LAST child, whose (already indented) tail is overwritten
with the parent-level indentation when blank. -/
def fixLastTail (i : String) : List XElem → List XElem
  | [] => []
  | [XElem.mk t tx cs tl] => [XElem.mk t tx cs (if wsOrNone tl then some i else tl)]
  | e :: es => e :: fixLastTail i es

mutual

/-- The `indent` helper (source lines 337-350), made functional: for an
element with children, blank text becomes the child indentation, blank
tail becomes the own-level indentation, children are indented one level
deeper, and the last child's blank tail is rewritten to the own-level
indentation; a childless element at a positive level gets the own-level
indentation as tail when blank. -/
def indentX (level : Nat) : XElem → XElem
  | .mk tag text children tail =>
    let i := "\n" ++ String.mk (List.replicate (level * 2) ' ')
    match children with
    | [] => .mk tag text [] (if level ≠ 0 ∧ wsOrNone tail then some i else tail)
    | c :: cs =>
      .mk tag
        (if wsOrNone text then some (i ++ "  ") else text)
        (fixLastTail i (indentXList (level + 1) (c :: cs)))
        (if wsOrNone tail then some i else tail)

/-- Indent every element of a list of siblings. -/
def indentXList (level : Nat) : List XElem → List XElem
  | [] => []
  | e :: es => indentX level e :: indentXList level es

end

/-- `ElementTree._escape_cdata` for text and tails: `&`, `<`, `>`. -/
def escapeCdata (s : String) : String :=
  String.join (s.toList.map (fun c =>
    if c = '&' then "&amp;"
    else if c = '<' then "&lt;"
    else if c = '>' then "&gt;" else String.mk [c]))

/-- Python truthiness of an element's text slot. -/
def textTruthy : Option String → Bool
  | none => false
  | some s => s ≠ ""

mutual

/-- The Python 2 `ElementTree` XML serializer restricted to the shapes
the source produces (no attributes, no namespaces, no declaration): an
element with neither truthy text nor children is self-closed as
`<tag />`; otherwise text then children are written between the tags;
a truthy tail is written after the element — including the root's tail,
which `indent` sets to a newline. -/
def serializeX : XElem → String
  | .mk tag text children tail =>
    "<" ++ tag ++
      (if textTruthy text || !children.isEmpty then
        ">" ++ (match text with
                | some s => if s ≠ "" then escapeCdata s else ""
                | none => "") ++
          serializeXList children ++ "</" ++ tag ++ ">"
      else " />") ++
      (match tail with
       | some s => if s ≠ "" then escapeCdata s else ""
       | none => "")

/-- Serialize a list of sibling elements in order. -/
def serializeXList : List XElem → String
  | [] => ""
  | e :: es => serializeX e ++ serializeXList es

end

/-- Build the `channel` element for one channel descriptor (source
lines 305-317 / 320-332): a `name` child, a `period` child, and an
empty mode element whose tag is the lowercased sample mode. -/
def channelElem (c : Channel) : XElem :=
  .mk "channel" none
    [.mk "name" (some c.name) [] none,
     .mk "period" c.period [] none,
     .mk c.mode none [] none] none

/-- Build the document (source lines 294-333): an `engineconfig` root
holding one `group` whose first child is the fixed name
`Default_Group`, followed by all channel elements in order. -/
def buildRoot (cs : List Channel) : XElem :=
  .mk "engineconfig" none
    [.mk "group" none (.mk "name" (some "Default_Group") [] none :: cs.map channelElem) none]
    none

/-- The whole conversion as a function of the input file's lines:
parse, expand, indent, serialize.  `.error` models a run that reports
a diagnostic and exits nonzero without writing the output file (the
parse-loop `except`/`sys.exit(2)` or an uncaught `AttributeError`
during the XML build). -/
def runConverter (lines : List String) : Except String String := do
  let recs ← parseFile lines
  let cs ← expandRecords recs
  .ok (serializeX (indentX 0 (buildRoot cs)))

/-- The parsed-then-expanded channel sequence of an input. -/
def pipelineChannels (lines : List String) : Except String (List Channel) := do
  let recs ← parseFile lines
  expandRecords recs

/-!  ### Helper lemmas  -/

/-- Dropping a prefix all of whose characters satisfy the predicate. -/
theorem dropWhile_append_of_all {p : Char → Bool} :
    ∀ (l₁ l₂ : List Char), (∀ c ∈ l₁, p c = true) →
      List.dropWhile p (l₁ ++ l₂) = List.dropWhile p l₂ := by
  intro l₁
  induction l₁ with
  | nil => intro l₂ _; rfl
  | cons c cs ih =>
    intro l₂ h
    have hc : p c = true := h c (by simp)
    simp [List.dropWhile_cons, hc]
    exact ih l₂ (fun x hx => h x (by simp [hx]))

/-- A nonempty character list makes a nonempty string. -/
theorem stringMk_ne_empty (l : List Char) (h : l ≠ []) : String.mk l ≠ "" := by
  intro he
  apply h
  have := congrArg String.toList he
  simpa using this

/-- A case-insensitive word match against a nonempty template consumes
at least one character. -/
theorem matchWordCI_ne_nil (t : Char) (ts s m r : List Char)
    (h : matchWordCI (t :: ts) s = some (m, r)) : m ≠ [] := by
  cases s with
  | nil => simp [matchWordCI] at h
  | cons c cs =>
    rw [matchWordCI] at h
    by_cases hc : (c = t || c = t.toUpper) = true
    · rw [if_pos hc] at h
      cases hm : matchWordCI ts cs with
      | none => rw [hm] at h; simp at h
      | some p =>
        rw [hm] at h
        simp only [Option.map_some', Option.some.injEq, Prod.mk.injEq] at h
        obtain ⟨h1, _⟩ := h
        rw [← h1]
        simp
    · rw [if_neg hc] at h; simp at h

/-- The mode group of `ARCHPATTERN` never captures the empty string. -/
theorem matchMode_ne_nil (s m r : List Char) (h : matchMode s = some (m, r)) :
    m ≠ [] := by
  unfold matchMode at h
  cases h1 : matchWordCI "monitor".toList s with
  | some p =>
    rw [h1] at h
    simp only [Option.orElse] at h
    injection h with h
    subst h
    exact matchWordCI_ne_nil 'm' "onitor".toList s m r h1
  | none =>
    rw [h1] at h
    simp only [Option.orElse] at h
    exact matchWordCI_ne_nil 's' "can".toList s m r h

/-- The period group of `ARCHPATTERN` never captures the empty string. -/
theorem matchPeriod_ne_nil (s p r : List Char) (h : matchPeriod s = some (p, r)) :
    p ≠ [] := by
  unfold matchPeriod at h
  split at h
  · split at h
    · simp only [Option.some.injEq, Prod.mk.injEq] at h
      obtain ⟨h1, _⟩ := h
      rw [← h1]
      simp
    · simp at h
  · simp at h

/-- When the after-mode part of `ARCHPATTERN` matches, the period
capture is nonempty. -/
theorem archAfterMode_period_ne_empty (s1 : List Char) (pd pr : String)
    (h : archAfterMode s1 = some (pd, pr)) : pd ≠ "" := by
  unfold archAfterMode at h
  split at h
  · split at h
    · exact absurd h (by simp)
    · rename_i pdl s4 heq
      simp only [Option.some.injEq, Prod.mk.injEq] at h
      obtain ⟨hpd, _⟩ := h
      subst hpd
      exact stringMk_ne_empty _ (matchPeriod_ne_nil _ _ _ heq)
  · exact absurd h (by simp)

/-- When `ARCHPATTERN` matches, both mandatory groups are nonempty
(Python-truthy), so the error branch at source line 162 is dead code. -/
theorem ARCHPATTERN_groups_ne_empty (v md pd pr : String)
    (h : ARCHPATTERN_match v = some (md, pd, pr)) : md ≠ "" ∧ pd ≠ "" := by
  unfold ARCHPATTERN_match at h
  split at h
  · exact absurd h (by simp)
  · rename_i mdl s1 heq1
    split at h
    · exact absurd h (by simp)
    · rename_i pd' pr' heq2
      simp only [Option.some.injEq, Prod.mk.injEq] at h
      obtain ⟨hmd, hpd, _⟩ := h
      subst hmd; subst hpd
      exact ⟨stringMk_ne_empty _ (matchMode_ne_nil _ _ _ heq1),
             archAfterMode_period_ne_empty _ _ _ heq2⟩

/-- `[0-5]` is contained in `[0-9]`. -/
theorem digit09_of_digit05 (c : Char) (h : isDigit05 c = true) : isDigit09 c = true := by
  unfold isDigit05 at h
  unfold isDigit09
  rw [Bool.and_eq_true] at h ⊢
  refine ⟨h.1, ?_⟩
  have h2 : c ≤ '5' := of_decide_eq_true h.2
  exact decide_eq_true (le_trans h2 (by decide))

/-- A decimal digit is not a Python whitespace character. -/
theorem not_wsp_of_digit09 (c : Char) (h : isDigit09 c = true) : wsp c = false := by
  unfold isDigit09 at h
  rw [Bool.and_eq_true] at h
  have h1 : '0' ≤ c := of_decide_eq_true h.1
  unfold wsp
  simp only [Bool.or_eq_false_iff]
  refine ⟨⟨⟨⟨⟨?_, ?_⟩, ?_⟩, ?_⟩, ?_⟩, ?_⟩ <;>
    · rw [decide_eq_false_iff_not]
      intro he
      subst he
      revert h1
      decide

/-!  ### C8 — empty-but-present property list gives zero channels  -/

/-- C8: for every archive-tagged info attribute whose property list is
present but empty (`some []`, as opposed to the sentinel `none`), the
channel expansion emits zero channels for that attribute: the
per-property loop runs zero times (this also means the `mode.lower()`
call inside the loop is never reached, so no exception either). -/
theorem c8_empty_properties_list (recName n v : String) (md pd : Option String) :
    expandAttr recName (.archive "info" n v md pd (some [])) = .ok [] := by
  cases md <;> simp [expandAttr]

/-!  ### C9 — determinism  -/

/-- C9: the converter is deterministic.  The embedding renders the
whole pipeline (parse loop, channel expansion, XML build, indentation
and serialization) as a pure function of the input file's line list and
of nothing else — the source iterates only ordered lists, never
unordered containers, and consults no clock, randomness or environment
— so two runs on the same content produce the same parsed record list,
the same channel sequence, and a byte-identical serialized document. -/
theorem c9_deterministic (l1 l2 : List String) (h : l1 = l2) :
    parseFile l1 = parseFile l2 ∧ pipelineChannels l1 = pipelineChannels l2 ∧
      runConverter l1 = runConverter l2 := by
  subst h; exact ⟨rfl, rfl, rfl⟩

/-- Witness for C9 at a concrete input. -/
theorem c9_deterministic_witness :
    parseFile ["record(ai, \"W9\") \x7b", "  info(archive, \"monitor, 00:00:10\")", "\x7d"] =
        parseFile ["record(ai, \"W9\") \x7b", "  info(archive, \"monitor, 00:00:10\")", "\x7d"] ∧
      pipelineChannels ["record(ai, \"W9\") \x7b", "  info(archive, \"monitor, 00:00:10\")", "\x7d"] =
        pipelineChannels ["record(ai, \"W9\") \x7b", "  info(archive, \"monitor, 00:00:10\")", "\x7d"] ∧
      runConverter ["record(ai, \"W9\") \x7b", "  info(archive, \"monitor, 00:00:10\")", "\x7d"] =
        runConverter ["record(ai, \"W9\") \x7b", "  info(archive, \"monitor, 00:00:10\")", "\x7d"] :=
  c9_deterministic _ _ rfl

/-!  ### C5 — output file name  -/

/-- C5 counterexample: `"xd"` does not end in `".db"`, so the claim
says the output is `"xd" ++ "_arch.xml"` with the path otherwise
unchanged; but `rstrip('.db')` strips the trailing `d` (a member of the
character set) and the code produces `"x_arch.xml"`. -/
theorem c5_counterexample :
    (".db".toList.isSuffixOf "xd".toList) = false ∧
      outputFilename "xd" ≠ "xd" ++ "_arch.xml" ∧
      outputFilename "xd" = "x_arch.xml" := by decide

/-- C5 amended: the output path is the input with its maximal trailing
run of characters from the set consisting of `.`, `d`, `b` removed
(Python `rstrip('.db')` semantics — a character-set strip, not suffix
replacement), then `"_arch.xml"` appended. -/
theorem c5_output_filename_amended (pre suf : List Char)
    (hsuf : suf.all (['.', 'd', 'b'].contains ·) = true)
    (hpre : pre.getLast?.all (fun c => !(['.', 'd', 'b'].contains c)) = true) :
    outputFilename (String.mk (pre ++ suf)) = String.mk pre ++ "_arch.xml" := by
  have hsuf' : ∀ c ∈ suf.reverse, (['.', 'd', 'b'].contains c) = true := by
    intro c hc
    exact (List.all_eq_true.mp hsuf) c (List.mem_reverse.mp hc)
  unfold outputFilename pyRstrip
  have htl : (String.mk (pre ++ suf)).toList = pre ++ suf := rfl
  rw [htl, List.reverse_append, dropWhile_append_of_all _ _ hsuf']
  cases hrev : pre.reverse with
  | nil =>
    have : pre = [] := by
      have := congrArg List.reverse hrev
      simpa using this
    subst this; rfl
  | cons c cs =>
    have hlast : pre.getLast? = some c := by
      rw [← List.head?_reverse, hrev]; rfl
    have hc : (['.', 'd', 'b'].contains c) = false := by
      have := hpre
      rw [hlast] at this
      simpa [Option.all] using this
    rw [List.dropWhile_cons, hc]
    simp only [Bool.false_eq_true, if_false, ← hrev, List.reverse_reverse]

/-- Witness for C5 amended: input `"mydata.db"` splits as
`"mydata" ++ ".db"` and yields `"mydata_arch.xml"`. -/
theorem c5_output_filename_amended_witness :
    outputFilename (String.mk ("mydata".toList ++ ".db".toList)) =
      String.mk "mydata".toList ++ "_arch.xml" :=
  c5_output_filename_amended "mydata".toList ".db".toList (by decide) (by decide)

/-!  ### C6 — mode is stored raw, lowercased only at XML build  -/

/-- C6 counterexample: parsing the archive value `"SCAN, 00:00:04"`
stores the mode exactly as matched — `"SCAN"`, not lowercase — so
`get_sample_mode` does not return a lowercase string. -/
theorem c6_counterexample :
    (ArchiveAttribute_init "info" "archive" "SCAN, 00:00:04").get_sample_mode =
        some "SCAN" ∧
      some "SCAN" ≠ some (pyLower "SCAN") := by decide

/-- Expansion of a `field` attribute: skipped, no channels. -/
theorem expandAttr_field (rn n v : String) :
    expandAttr rn (.plain "field" n v) = .ok [] := by
  simp [expandAttr]

/-- Expansion of a well-parsed archive attribute with the no-properties
sentinel: one bare channel named by the record. -/
theorem expandAttr_archive_no_props (rn n v m : String) (pd : Option String) :
    expandAttr rn (.archive "info" n v (some m) pd none) =
      .ok [⟨rn, pd, pyLower m⟩] := by
  simp [expandAttr]

/-- Expansion of a well-parsed archive attribute with a property list:
one channel per property, named record-name dot property. -/
theorem expandAttr_archive_some_props (rn n v m : String) (pd : Option String)
    (ps : List String) :
    expandAttr rn (.archive "info" n v (some m) pd (some ps)) =
      .ok (ps.map (fun p => ⟨rn ++ "." ++ p, pd, pyLower m⟩)) := by
  simp [expandAttr]

/-- When `ARCHPATTERN` matches, `ArchiveAttribute.__init__` takes the
storing branch (the mandatory groups are always truthy). -/
theorem ArchiveAttribute_init_of_match (t n v md pd pr : String)
    (h : ARCHPATTERN_match v = some (md, pd, pr)) (hmd : md ≠ "") (hpd : pd ≠ "") :
    ArchiveAttribute_init t n v =
      .archive t n v (some md) (some pd)
        (if pr ≠ "" then some (splitWhitespace pr) else none) := by
  unfold ArchiveAttribute_init
  rw [h]
  show (if md ≠ "" ∧ pd ≠ "" then
          EpicsAttr.archive t n v (some md) (some pd)
            (if pr ≠ "" then some (splitWhitespace pr) else none)
        else EpicsAttr.archive t n v none none none) = _
  exact if_pos ⟨hmd, hpd⟩

/-- C6 amended: when `ARCHPATTERN` captures mode and period, the mode
is stored on the `ArchiveAttribute` exactly as matched (case
preserved), so `get_sample_mode` returns the raw capture; the
normalization to lowercase happens only when the channel mode element
is built, so every channel emitted for the attribute carries the
lowercased mode. -/
theorem c6_mode_case_amended (t n v md pd pr : String)
    (h : ARCHPATTERN_match v = some (md, pd, pr)) :
    (ArchiveAttribute_init t n v).get_sample_mode = some md ∧
      (∀ rn cs, expandAttr rn (ArchiveAttribute_init "info" n v) = .ok cs →
        ∀ c ∈ cs, c.mode = pyLower md) := by
  obtain ⟨hmd, hpd⟩ := ARCHPATTERN_groups_ne_empty v md pd pr h
  constructor
  · rw [ArchiveAttribute_init_of_match t n v md pd pr h hmd hpd]
    rfl
  · intro rn cs hcs c hc
    rw [ArchiveAttribute_init_of_match "info" n v md pd pr h hmd hpd] at hcs
    by_cases hp : pr ≠ ""
    · rw [if_pos hp, expandAttr_archive_some_props] at hcs
      injection hcs with hcs
      rw [← hcs] at hc
      obtain ⟨p, _, hcp⟩ := List.mem_map.mp hc
      rw [← hcp]
    · rw [if_neg hp, expandAttr_archive_no_props] at hcs
      injection hcs with hcs
      rw [← hcs] at hc
      simp only [List.mem_singleton] at hc
      rw [hc]

/-- Witness for C6 amended at the value `"SCAN, 00:00:04"`. -/
theorem c6_mode_case_amended_witness :
    (ArchiveAttribute_init "info" "archive" "SCAN, 00:00:04").get_sample_mode =
        some "SCAN" ∧
      (∀ rn cs,
          expandAttr rn (ArchiveAttribute_init "info" "archive" "SCAN, 00:00:04") =
            .ok cs →
        ∀ c ∈ cs, c.mode = pyLower "SCAN") :=
  c6_mode_case_amended "info" "archive" "SCAN, 00:00:04" "SCAN" "00:00:04" ""
    (by decide)

/-!  ### C4 — a valid `monitor` archive value parses as claimed  -/

/-- C4: for every archive value of the form `"monitor, HH:MM:SS"` (the
mode `monitor`, a comma, a valid period whose three two-digit
components each match the class `[0-5][0-9]`, and nothing after),
`ArchiveAttribute.__init__` stores mode `"monitor"`, the period string,
and the no-properties sentinel `None` (modelled `none`, distinguished
from the present-but-empty list `some []`). -/
theorem c4_valid_archive_value (a b d e f g : Char)
    (ha : isDigit05 a = true) (hb : isDigit09 b = true)
    (hd : isDigit05 d = true) (he : isDigit09 e = true)
    (hf : isDigit05 f = true) (hg : isDigit09 g = true) :
    ArchiveAttribute_init "info" "archive"
        ("monitor, " ++ String.mk [a, b, ':', d, e, ':', f, g]) =
      .archive "info" "archive"
        ("monitor, " ++ String.mk [a, b, ':', d, e, ':', f, g])
        (some "monitor") (some (String.mk [a, b, ':', d, e, ':', f, g])) none := by
  have hwa : wsp a = false := not_wsp_of_digit09 a (digit09_of_digit05 a ha)
  have hdw : List.dropWhile wsp (a :: b :: ':' :: d :: e :: ':' :: f :: g :: []) =
      a :: b :: ':' :: d :: e :: ':' :: f :: g :: [] := by
    rw [List.dropWhile_cons, hwa]
    simp
  have hmp : matchPeriod (a :: b :: ':' :: d :: e :: ':' :: f :: g :: []) =
      some ([a, b, ':', d, e, ':', f, g], []) := by
    simp [matchPeriod, ha, hb, hd, he, hf, hg]
  have hAM : archAfterMode (',' :: ' ' :: a :: b :: ':' :: d :: e :: ':' :: f :: g :: []) =
      some (String.mk [a, b, ':', d, e, ':', f, g], "") := by
    have h0 : archAfterMode (',' :: ' ' :: a :: b :: ':' :: d :: e :: ':' :: f :: g :: []) =
        match matchPeriod (List.dropWhile wsp (a :: b :: ':' :: d :: e :: ':' :: f :: g :: [])) with
        | none => none
        | some (pd, s4) => some (String.mk pd, archAfterPeriod s4) := rfl
    rw [h0, hdw, hmp]
    rfl
  have hmatch : ARCHPATTERN_match
      ("monitor, " ++ String.mk [a, b, ':', d, e, ':', f, g]) =
      some ("monitor", String.mk [a, b, ':', d, e, ':', f, g], "") := by
    have h1 : ARCHPATTERN_match
        ("monitor, " ++ String.mk [a, b, ':', d, e, ':', f, g]) =
        match archAfterMode (',' :: ' ' :: a :: b :: ':' :: d :: e :: ':' :: f :: g :: []) with
        | none => none
        | some (pd, pr) => some ("monitor", pd, pr) := rfl
    rw [h1, hAM]
  rw [ArchiveAttribute_init_of_match _ _ _ _ _ _ hmatch
    (by decide) (stringMk_ne_empty _ (by simp))]
  simp

/-- Witness for C4 at the spec's example value `"monitor, 00:00:05"`. -/
theorem c4_valid_archive_value_witness :
    ArchiveAttribute_init "info" "archive"
        ("monitor, " ++ String.mk ['0', '0', ':', '0', '0', ':', '0', '5']) =
      .archive "info" "archive"
        ("monitor, " ++ String.mk ['0', '0', ':', '0', '0', ':', '0', '5'])
        (some "monitor") (some (String.mk ['0', '0', ':', '0', '0', ':', '0', '5']))
        none :=
  c4_valid_archive_value '0' '0' '0' '0' '0' '5'
    (by decide) (by decide) (by decide) (by decide) (by decide) (by decide)

/-!  ### C2 — invalid archive value: what the code actually does  -/

/-- C2, the code's actual behaviour at a failing input: for the record
body line `info(archive, "garbage")` a policy-parse error is indeed
reported, but the half-initialised attribute (mode, period, properties
all `None`) IS added to the record, and the later XML build then dies
with an uncaught `AttributeError` on `None.lower()` — so the following
valid archive attribute of the same record yields no channel either,
contradicting the claimed skip-and-continue behaviour. -/
theorem c2_code_behavior :
    archiveParseErrorReported "garbage" = true ∧
      parseFile ["record(ai, \"R1\") \x7b",
                 "  info(archive, \"garbage\")",
                 "  info(archive, \"monitor, 00:00:05\")",
                 "\x7d"] =
        .ok [⟨"ai", "R1",
              [.archive "info" "archive" "garbage" none none none,
               .archive "info" "archive" "monitor, 00:00:05"
                 (some "monitor") (some "00:00:05") none]⟩] ∧
      expandRecords [⟨"ai", "R1",
              [.archive "info" "archive" "garbage" none none none,
               .archive "info" "archive" "monitor, 00:00:05"
                 (some "monitor") (some "00:00:05") none]⟩] =
        .error "AttributeError: NoneType has no attribute lower" := by
  refine ⟨rfl, rfl, rfl⟩

/-!  ### C1 — channel expansion counts  -/

/-- C1 counterexample: a parsed record list may contain an
archive-tagged info attribute whose value failed the policy pattern
(mode `None`); the claim then demands max(1, 0) = 1 bare channel
carrying the attribute's period, but the channel expansion instead
aborts with an uncaught `AttributeError`, emitting no channel list at
all. -/
theorem c1_counterexample :
    parseFile ["record(ai, \"R2\") \x7b", "  info(archive, \"nonsense\")", "\x7d"] =
        .ok [⟨"ai", "R2", [.archive "info" "archive" "nonsense" none none none]⟩] ∧
      expandRecords [⟨"ai", "R2",
          [.archive "info" "archive" "nonsense" none none none]⟩] =
        .error "AttributeError: NoneType has no attribute lower" := by
  refine ⟨rfl, rfl⟩

/-!  ### Parser invariants (shared by C1 and C10)  -/

/-- The invariant of every attribute the parse loop ever stores: plain
attributes are created only in the `field` branch, archive attributes
only in the `info`/`archive` branch, and a stored properties list is
never present-but-empty. -/
def goodAttr (a : EpicsAttr) : Prop :=
  match a with
  | .plain t _ _ => t = "field"
  | .archive t n _ _ _ props => t = "info" ∧ n = "archive" ∧ props ≠ some []

/-- All attributes of a record satisfy the invariant. -/
def goodRec (r : EpicsRecord) : Prop := ∀ a ∈ r.rec_attributes, goodAttr a

/-- The invariant extended to the parse state. -/
def goodPState : PState → Prop
  | .top => True
  | .seekOpen r => goodRec r
  | .inBody r => goodRec r

/-- The head of a `dropWhile` result fails the predicate. -/
theorem dropWhile_head_false {p : Char → Bool} :
    ∀ (l : List Char) (c : Char) (r : List Char),
      List.dropWhile p l = c :: r → p c = false := by
  intro l
  induction l with
  | nil => intro c r h; simp at h
  | cons x xs ih =>
    intro c r h
    rw [List.dropWhile_cons] at h
    cases hb : p x with
    | true => rw [hb] at h; simp at h; exact ih c r h
    | false =>
      rw [hb] at h
      simp at h
      rw [← h.1]
      exact hb

/-- Splitting never gives the empty list while a token is pending. -/
theorem splitWhitespaceAux_ne_nil_of_cur :
    ∀ (l cur : List Char), cur ≠ [] → splitWhitespaceAux l cur ≠ [] := by
  intro l
  induction l with
  | nil =>
    intro cur hc
    unfold splitWhitespaceAux
    rw [if_neg (by simpa using hc)]
    simp
  | cons c cs ih =>
    intro cur hc
    unfold splitWhitespaceAux
    cases hw : wsp c with
    | true =>
      rw [if_pos rfl, if_neg (by simpa using hc)]
      simp
    | false =>
      rw [if_neg (by simp)]
      exact ih (c :: cur) (by simp)

/-- The rec_props capture of `ARCHPATTERN` is either empty or splits
into a nonempty token list: it never begins with whitespace, because
the greedy `\s*` before it consumed any. -/
theorem archAfterPeriod_shape (s4 : List Char) :
    archAfterPeriod s4 = "" ∨ splitWhitespace (archAfterPeriod s4) ≠ [] := by
  unfold archAfterPeriod
  cases h7 : List.dropWhile wsp (archSkipComma (s4.dropWhile wsp)) with
  | nil => left; rfl
  | cons c r =>
    right
    have hcw : wsp c = false := dropWhile_head_false _ c r h7
    have hcn : ¬ (c = '\n') := by
      intro he
      rw [he] at hcw
      exact absurd hcw (by decide)
    rw [List.takeWhile_cons, if_pos (by simp [hcn])]
    generalize List.takeWhile (fun x => decide (x ≠ '\n')) r = L
    have hrw : splitWhitespace (String.mk (c :: L)) = splitWhitespaceAux L [c] := by
      show splitWhitespaceAux (c :: L) [] = splitWhitespaceAux L [c]
      rw [splitWhitespaceAux]
      simp [hcw]
    rw [hrw]
    exact splitWhitespaceAux_ne_nil_of_cur L [c] (by simp)

/-- The rec_props capture of a successful `ARCHPATTERN` match is empty
or splits into a nonempty token list. -/
theorem ARCHPATTERN_props_shape (v md pd pr : String)
    (h : ARCHPATTERN_match v = some (md, pd, pr)) :
    pr = "" ∨ splitWhitespace pr ≠ [] := by
  unfold ARCHPATTERN_match at h
  split at h
  · exact absurd h (by simp)
  · rename_i mdl s1 heq1
    split at h
    · exact absurd h (by simp)
    · rename_i pd' pr' heq2
      simp only [Option.some.injEq, Prod.mk.injEq] at h
      obtain ⟨_, _, hpr⟩ := h
      subst hpr
      unfold archAfterMode at heq2
      split at heq2
      · split at heq2
        · exact absurd heq2 (by simp)
        · rename_i pdl s4 _
          simp only [Option.some.injEq, Prod.mk.injEq] at heq2
          obtain ⟨_, hpr'⟩ := heq2
          rw [← hpr']
          exact archAfterPeriod_shape s4
      · exact absurd heq2 (by simp)

/-- `ArchiveAttribute.__init__` always yields an archive attribute
carrying the given triple, whose properties slot is never a
present-but-empty list. -/
theorem ArchiveAttribute_init_shape (t n v : String) :
    ∃ md pd props, ArchiveAttribute_init t n v = .archive t n v md pd props ∧
      props ≠ some [] := by
  cases h : ARCHPATTERN_match v with
  | none =>
    refine ⟨none, none, none, ?_, by simp⟩
    unfold ArchiveAttribute_init
    rw [h]
  | some p =>
    obtain ⟨md, pd, pr⟩ := p
    obtain ⟨hmd, hpd⟩ := ARCHPATTERN_groups_ne_empty v md pd pr h
    refine ⟨some md, some pd, if pr ≠ "" then some (splitWhitespace pr) else none,
      ArchiveAttribute_init_of_match t n v md pd pr h hmd hpd, ?_⟩
    by_cases hp : pr ≠ ""
    · rw [if_pos hp]
      rcases ARCHPATTERN_props_shape v md pd pr h with h1 | h1
      · exact absurd h1 hp
      · simp [h1]
    · rw [if_neg hp]
      simp

/-- One body line preserves the attribute invariant. -/
theorem stepBody_good (line : String) (attrs : List EpicsAttr)
    (h : ∀ a ∈ attrs, goodAttr a) : ∀ a ∈ stepBody line attrs, goodAttr a := by
  unfold stepBody
  split
  · rename_i t n v _
    by_cases ht : t = "field"
    · rw [if_pos ht]
      intro a ha
      rcases List.mem_append.mp ha with h1 | h1
      · exact h a h1
      · rw [List.mem_singleton.mp h1]
        exact ht
    · rw [if_neg ht]
      by_cases ht2 : t = "info" ∧ n = "archive"
      · rw [if_pos ht2]
        intro a ha
        rcases List.mem_append.mp ha with h1 | h1
        · exact h a h1
        · rw [List.mem_singleton.mp h1]
          obtain ⟨md, pd, props, hsh, hprops⟩ := ArchiveAttribute_init_shape t n v
          rw [hsh]
          exact ⟨ht2.1, ht2.2, hprops⟩
      · rw [if_neg ht2]
        exact h
  · exact h

/-- One line of the parse state machine preserves the invariant of the
state and of all completed records. -/
theorem stepLine_good (st : PState) (acc : List EpicsRecord) (line : String)
    (h1 : goodPState st) (h2 : ∀ r ∈ acc, goodRec r) :
    goodPState (stepLine (st, acc) line).1 ∧
      ∀ r ∈ (stepLine (st, acc) line).2, goodRec r := by
  have hnew : ∀ t n : String, goodRec ⟨t, n, []⟩ := by
    intro t n a ha
    simp [EpicsRecord.rec_attributes] at ha
  have happ : ∀ (r : EpicsRecord), goodRec r → ∀ x ∈ acc ++ [r], goodRec x := by
    intro r hr x hx
    rcases List.mem_append.mp hx with hx1 | hx1
    · exact h2 x hx1
    · rw [List.mem_singleton.mp hx1]
      exact hr
  cases st with
  | top =>
    simp only [stepLine]
    split
    · exact ⟨trivial, h2⟩
    · rename_i t n _
      by_cases hb1 : hasChar '{' line = true
      · rw [if_pos hb1]
        by_cases hb2 : hasChar '}' line = true
        · rw [if_pos hb2]
          exact ⟨trivial, happ _ (hnew t n)⟩
        · rw [if_neg hb2]
          exact ⟨hnew t n, h2⟩
      · rw [if_neg hb1]
        exact ⟨hnew t n, h2⟩
  | seekOpen r =>
    simp only [stepLine]
    by_cases hb1 : hasChar '{' line = true
    · rw [if_pos hb1]
      by_cases hb2 : hasChar '}' line = true
      · rw [if_pos hb2]
        exact ⟨trivial, happ _ h1⟩
      · rw [if_neg hb2]
        exact ⟨h1, h2⟩
    · rw [if_neg hb1]
      exact ⟨h1, h2⟩
  | inBody r =>
    simp only [stepLine]
    have hr2 : goodRec ⟨r.rec_type, r.rec_name, stepBody line r.rec_attributes⟩ := by
      intro a ha
      exact stepBody_good line r.rec_attributes h1 a ha
    by_cases hb2 : hasChar '}' line = true
    · rw [if_pos hb2]
      exact ⟨trivial, happ _ hr2⟩
    · rw [if_neg hb2]
      exact ⟨hr2, h2⟩

/-- The fold of the parse state machine preserves the invariant. -/
theorem foldl_stepLine_good (lines : List String) :
    ∀ (st : PState) (acc : List EpicsRecord), goodPState st →
      (∀ r ∈ acc, goodRec r) →
      goodPState (lines.foldl stepLine (st, acc)).1 ∧
        ∀ r ∈ (lines.foldl stepLine (st, acc)).2, goodRec r := by
  induction lines with
  | nil => intro st acc h1 h2; exact ⟨h1, h2⟩
  | cons l ls ih =>
    intro st acc h1 h2
    rw [List.foldl_cons]
    obtain ⟨g1, g2⟩ := stepLine_good st acc l h1 h2
    have := ih (stepLine (st, acc) l).1 (stepLine (st, acc) l).2 g1 g2
    simpa using this

/-- Every attribute of every successfully parsed record satisfies the
structural invariant. -/
theorem parseFile_good (lines : List String) (recs : List EpicsRecord)
    (h : parseFile lines = .ok recs) :
    ∀ r ∈ recs, ∀ a ∈ r.rec_attributes, goodAttr a := by
  unfold parseFile at h
  obtain ⟨g1, g2⟩ := foldl_stepLine_good lines .top [] trivial (by simp)
  split at h
  · rename_i acc heq
    injection h with h
    subst h
    rw [heq] at g2
    intro r hr
    exact g2 r hr
  · exact absurd h (by simp)

/-!  ### C10 — the parsed-attribute invariant  -/

/-- C10: in every parsed record list, every stored attribute has
attr_type `field` or `info`, and every stored attribute whose attr_type
is `info` was constructed as an `ArchiveAttribute` (so it carries the
mode, period and properties slots, and the channel expansion's calls to
`get_sample_period`, `get_sample_mode` and `get_sample_properties` on
info attributes are always defined). -/
theorem c10_parsed_attr_invariant (lines : List String) (recs : List EpicsRecord)
    (hp : parseFile lines = .ok recs) :
    ∀ r ∈ recs, ∀ a ∈ r.rec_attributes,
      (a.get_attribute_type = "field" ∨ a.get_attribute_type = "info") ∧
        (a.get_attribute_type = "info" → a.isArchive = true) := by
  intro r hr a ha
  have hg := parseFile_good lines recs hp r hr a ha
  cases a with
  | plain t n v =>
    have ht : t = "field" := hg
    constructor
    · left; exact ht
    · intro hinfo
      rw [show (EpicsAttr.plain t n v).get_attribute_type = t from rfl, ht] at hinfo
      exact absurd hinfo (by decide)
  | archive t n v md pd props =>
    obtain ⟨ht, _, _⟩ := hg
    exact ⟨Or.inr ht, fun _ => rfl⟩

/-- Witness for C10 at a concrete two-attribute input. -/
theorem c10_parsed_attr_invariant_witness :
    ((EpicsAttr.archive "info" "archive" "scan, 00:01:00, HIHI LOLO"
        (some "scan") (some "00:01:00") (some ["HIHI", "LOLO"])).get_attribute_type =
          "field" ∨
      (EpicsAttr.archive "info" "archive" "scan, 00:01:00, HIHI LOLO"
        (some "scan") (some "00:01:00") (some ["HIHI", "LOLO"])).get_attribute_type =
          "info") ∧
      ((EpicsAttr.archive "info" "archive" "scan, 00:01:00, HIHI LOLO"
        (some "scan") (some "00:01:00") (some ["HIHI", "LOLO"])).get_attribute_type =
          "info" →
        (EpicsAttr.archive "info" "archive" "scan, 00:01:00, HIHI LOLO"
          (some "scan") (some "00:01:00") (some ["HIHI", "LOLO"])).isArchive = true) :=
  c10_parsed_attr_invariant
    ["record(ai, \"W10\") \x7b",
     "  field(DESC, \"d\")",
     "  info(archive, \"scan, 00:01:00, HIHI LOLO\")",
     "\x7d"] _ rfl
    ⟨"ai", "W10",
      [.plain "field" "DESC" "d",
       .archive "info" "archive" "scan, 00:01:00, HIHI LOLO"
         (some "scan") (some "00:01:00") (some ["HIHI", "LOLO"])]⟩ (by decide)
    (.archive "info" "archive" "scan, 00:01:00, HIHI LOLO"
      (some "scan") (some "00:01:00") (some ["HIHI", "LOLO"])) (by decide)

/-- Has this archive attribute's value parsed successfully (mode slot
present)?  Plain attributes are trivially ok. -/
def archiveOk : EpicsAttr → Bool
  | .plain _ _ _ => true
  | .archive _ _ _ md _ _ => md.isSome

/-- The channels an attribute contributes when its expansion does not
raise. -/
def okChannels (rn : String) (a : EpicsAttr) : List Channel :=
  match expandAttr rn a with
  | .ok cs => cs
  | .error _ => []

/-- `okChannels` agrees with a successful expansion. -/
theorem okChannels_of_ok (rn : String) (a : EpicsAttr) (cs : List Channel)
    (h : expandAttr rn a = .ok cs) : okChannels rn a = cs := by
  unfold okChannels
  rw [h]

/-- When every attribute expands without raising, the record's channel
list is the in-order concatenation of the per-attribute channels. -/
theorem expandAttrs_eq_ok (rn : String) (attrs : List EpicsAttr)
    (h : ∀ a ∈ attrs, ∃ cs, expandAttr rn a = .ok cs) :
    expandAttrs rn attrs = .ok (attrs.flatMap (okChannels rn)) := by
  induction attrs with
  | nil => rfl
  | cons a as ih =>
    obtain ⟨cs, hcs⟩ := h a (by simp)
    have ih' := ih (fun x hx => h x (by simp [hx]))
    have step : expandAttrs rn (a :: as) =
        match expandAttr rn a with
        | .error e => .error e
        | .ok cs =>
          match expandAttrs rn as with
          | .error e => .error e
          | .ok cs2 => .ok (cs ++ cs2) := rfl
    rw [step, hcs, ih', List.flatMap_cons, okChannels_of_ok rn a cs hcs]

/-- When every attribute of every record expands without raising, the
output channel sequence is the record-then-attribute-then-property
order concatenation. -/
theorem expandRecords_eq_ok (recs : List EpicsRecord)
    (h : ∀ r ∈ recs, ∀ a ∈ r.rec_attributes, ∃ cs, expandAttr r.rec_name a = .ok cs) :
    expandRecords recs =
      .ok (recs.flatMap (fun r => r.rec_attributes.flatMap (okChannels r.rec_name))) := by
  induction recs with
  | nil => rfl
  | cons r rs ih =>
    have hr := expandAttrs_eq_ok r.rec_name r.rec_attributes (h r (by simp))
    have ih' := ih (fun x hx => h x (by simp [hx]))
    have step : expandRecords (r :: rs) =
        match expandAttrs r.rec_name r.rec_attributes with
        | .error e => .error e
        | .ok cs =>
          match expandRecords rs with
          | .error e => .error e
          | .ok cs2 => .ok (cs ++ cs2) := rfl
    rw [step, hr, ih', List.flatMap_cons]

/-- An invariant-respecting attribute whose archive value parsed (mode
present) always expands without raising. -/
theorem expandAttr_ok_of_good (rn : String) (a : EpicsAttr)
    (hg : goodAttr a) (hok : archiveOk a = true) :
    ∃ cs, expandAttr rn a = .ok cs := by
  cases a with
  | plain t n v =>
    have ht : t = "field" := hg
    subst ht
    exact ⟨[], expandAttr_field rn n v⟩
  | archive t n v md pd props =>
    obtain ⟨ht, _, _⟩ := hg
    subst ht
    cases md with
    | none => simp [archiveOk] at hok
    | some m =>
      cases props with
      | none => exact ⟨_, expandAttr_archive_no_props rn n v m pd⟩
      | some ps => exact ⟨_, expandAttr_archive_some_props rn n v m pd ps⟩

/-- C1 amended: for every parsed record list all of whose archive
attributes parsed successfully (mode present — see the counterexample
for the failing case), the channel expansion succeeds, its output is
the record-then-attribute-then-property ordered concatenation of the
per-attribute channels, and per attribute: a field-kind attribute
yields no channel; an archive-tagged info attribute yields exactly
max(1, properties-length) channels — one bare channel named with the
record name when the property list is the no-properties sentinel, and
one channel named record name + "." + property for each property
otherwise — each carrying the attribute's period. -/
theorem c1_channel_expansion_amended (lines : List String) (recs : List EpicsRecord)
    (hp : parseFile lines = .ok recs)
    (hv : ∀ r ∈ recs, ∀ a ∈ r.rec_attributes, archiveOk a = true) :
    expandRecords recs =
        .ok (recs.flatMap (fun r => r.rec_attributes.flatMap (okChannels r.rec_name))) ∧
      ∀ r ∈ recs, ∀ a ∈ r.rec_attributes,
        (a.get_attribute_type = "field" → okChannels r.rec_name a = []) ∧
        (a.isArchive = true → ∃ m, a.get_sample_mode = some m ∧
          (a.get_sample_properties = none →
            okChannels r.rec_name a = [⟨r.rec_name, a.get_sample_period, pyLower m⟩]) ∧
          (∀ ps, a.get_sample_properties = some ps →
            okChannels r.rec_name a =
              ps.map (fun p => ⟨r.rec_name ++ "." ++ p, a.get_sample_period, pyLower m⟩)) ∧
          (okChannels r.rec_name a).length = max 1 a.get_sample_properties_length) := by
  have hgood := parseFile_good lines recs hp
  constructor
  · exact expandRecords_eq_ok recs (fun r hr a ha =>
      expandAttr_ok_of_good r.rec_name a (hgood r hr a ha) (hv r hr a ha))
  · intro r hr a ha
    have hg := hgood r hr a ha
    have hok := hv r hr a ha
    cases a with
    | plain t n v =>
      have ht : t = "field" := hg
      subst ht
      refine ⟨fun _ => okChannels_of_ok _ _ _ (expandAttr_field r.rec_name n v), ?_⟩
      intro hia
      simp [EpicsAttr.isArchive] at hia
    | archive t n v md pd props =>
      obtain ⟨ht, _, hne⟩ := hg
      subst ht
      constructor
      · intro hft
        rw [show (EpicsAttr.archive "info" n v md pd props).get_attribute_type = "info"
          from rfl] at hft
        exact absurd hft (by decide)
      · intro _
        cases md with
        | none => simp [archiveOk] at hok
        | some m =>
          refine ⟨m, rfl, ?_, ?_, ?_⟩
          · intro hps
            have hpn : props = none := hps
            subst hpn
            exact okChannels_of_ok _ _ _ (expandAttr_archive_no_props r.rec_name n v m pd)
          · intro ps hps
            have hpn : props = some ps := hps
            subst hpn
            exact okChannels_of_ok _ _ _ (expandAttr_archive_some_props r.rec_name n v m pd ps)
          · cases props with
            | none =>
              rw [okChannels_of_ok _ _ _ (expandAttr_archive_no_props r.rec_name n v m pd)]
              show (1 : Nat) = max 1 0
              omega
            | some ps =>
              rw [okChannels_of_ok _ _ _ (expandAttr_archive_some_props r.rec_name n v m pd ps),
                List.length_map]
              have hps' : ps ≠ [] := fun he => hne (by rw [he])
              have h1 : 0 < ps.length := List.length_pos.mpr hps'
              show ps.length = max 1 ps.length
              omega

/-- Witness for C1 amended: a record with one field attribute, one
bare archive attribute, and one archive attribute with two
properties. -/
theorem c1_channel_expansion_amended_witness :
    expandRecords [(⟨"ai", "W1",
        [.plain "field" "DESC" "d",
         .archive "info" "archive" "monitor, 00:00:10"
           (some "monitor") (some "00:00:10") none,
         .archive "info" "archive" "scan, 00:01:00, HIHI LOLO"
           (some "scan") (some "00:01:00") (some ["HIHI", "LOLO"])]⟩ : EpicsRecord)] =
        .ok ([(⟨"ai", "W1",
          [.plain "field" "DESC" "d",
           .archive "info" "archive" "monitor, 00:00:10"
             (some "monitor") (some "00:00:10") none,
           .archive "info" "archive" "scan, 00:01:00, HIHI LOLO"
             (some "scan") (some "00:01:00") (some ["HIHI", "LOLO"])]⟩ : EpicsRecord)].flatMap
          (fun r => r.rec_attributes.flatMap (okChannels r.rec_name))) ∧
      ∀ r ∈ [(⟨"ai", "W1",
          [.plain "field" "DESC" "d",
           .archive "info" "archive" "monitor, 00:00:10"
             (some "monitor") (some "00:00:10") none,
           .archive "info" "archive" "scan, 00:01:00, HIHI LOLO"
             (some "scan") (some "00:01:00") (some ["HIHI", "LOLO"])]⟩ : EpicsRecord)],
        ∀ a ∈ r.rec_attributes,
          (a.get_attribute_type = "field" → okChannels r.rec_name a = []) ∧
          (a.isArchive = true → ∃ m, a.get_sample_mode = some m ∧
            (a.get_sample_properties = none →
              okChannels r.rec_name a = [⟨r.rec_name, a.get_sample_period, pyLower m⟩]) ∧
            (∀ ps, a.get_sample_properties = some ps →
              okChannels r.rec_name a =
                ps.map (fun p => ⟨r.rec_name ++ "." ++ p, a.get_sample_period, pyLower m⟩)) ∧
            (okChannels r.rec_name a).length = max 1 a.get_sample_properties_length) :=
  c1_channel_expansion_amended
    ["record(ai, \"W1\") \x7b",
     "  field(DESC, \"d\")",
     "  info(archive, \"monitor, 00:00:10\")",
     "  info(archive, \"scan, 00:01:00, HIHI LOLO\")",
     "\x7d"] _ rfl (by decide)

/-!  ### C7 — unterminated record bodies  -/

/-- The parse loop is inside a record (either brace-seeking loop) —
reaching end of input in such a state raises `StopIteration`. -/
def PState.stuck : PState → Prop
  | .top => False
  | .seekOpen _ => True
  | .inBody _ => True

/-- Lines without a closing brace never return the state machine to the
outer loop. -/
theorem foldl_no_close_stuck (ls : List String) :
    ∀ (st : PState) (acc : List EpicsRecord), PState.stuck st →
      (∀ l ∈ ls, hasChar '}' l = false) →
      PState.stuck (ls.foldl stepLine (st, acc)).1 := by
  induction ls with
  | nil => intro st acc h1 _; exact h1
  | cons l ls ih =>
    intro st acc h1 h2
    rw [List.foldl_cons]
    have hcl : hasChar '}' l = false := h2 l (by simp)
    have hstep : PState.stuck (stepLine (st, acc) l).1 := by
      cases st with
      | top => exact h1.elim
      | seekOpen r =>
        simp only [stepLine]
        by_cases hb1 : hasChar '{' l = true
        · rw [if_pos hb1, if_neg (by simp [hcl])]
          exact trivial
        · rw [if_neg hb1]
          exact trivial
      | inBody r =>
        simp only [stepLine]
        rw [if_neg (by simp [hcl])]
        exact trivial
    have := ih (stepLine (st, acc) l).1 (stepLine (st, acc) l).2 hstep
      (fun x hx => h2 x (by simp [hx]))
    simpa using this

/-- C7: for every input in which a record header is reached (after any
prefix that leaves the machine in the outer loop) and no subsequent
line — the header line included — contains a closing brace, the record
body reaches end-of-input unterminated: the parse raises
`StopIteration`, which the module-level handler reports and turns into
`sys.exit(2)` (nonzero), and the whole run produces no output document
(both modelled by `.error`). -/
theorem c7_unterminated_record (pre : List String) (accR : List EpicsRecord)
    (line : String) (rest : List String)
    (hpre : pre.foldl stepLine (.top, []) = (.top, accR))
    (hrec : (RECORD_SIGNATURE_match line).isSome = true)
    (hnc : ∀ l ∈ line :: rest, hasChar '}' l = false) :
    parseFile (pre ++ line :: rest) = .error "StopIteration" ∧
      runConverter (pre ++ line :: rest) = .error "StopIteration" := by
  have hcl : hasChar '}' line = false := hnc line (by simp)
  have hstep : PState.stuck (stepLine (.top, accR) line).1 := by
    simp only [stepLine]
    split
    · rename_i heq
      rw [heq] at hrec
      simp at hrec
    · rename_i t n _
      by_cases hb1 : hasChar '{' line = true
      · rw [if_pos hb1, if_neg (by simp [hcl])]
        exact trivial
      · rw [if_neg hb1]
        exact trivial
  have key : PState.stuck ((pre ++ line :: rest).foldl stepLine (.top, [])).1 := by
    rw [List.foldl_append, hpre, List.foldl_cons]
    have := foldl_no_close_stuck rest (stepLine (.top, accR) line).1
      (stepLine (.top, accR) line).2 hstep (fun x hx => hnc x (by simp [hx]))
    simpa using this
  have hparse : parseFile (pre ++ line :: rest) = .error "StopIteration" := by
    unfold parseFile
    rcases hfold : (pre ++ line :: rest).foldl stepLine (.top, []) with ⟨st, acc⟩
    rw [hfold] at key
    cases st with
    | top => exact key.elim
    | seekOpen r => rfl
    | inBody r => rfl
  refine ⟨hparse, ?_⟩
  unfold runConverter
  rw [hparse]
  rfl

/-- Witness for C7: a header line whose body is cut off by
end-of-input. -/
theorem c7_unterminated_record_witness :
    parseFile ["record(ai, \"W7\") \x7b", "  field(A, \"b\")"] = .error "StopIteration" ∧
      runConverter ["record(ai, \"W7\") \x7b", "  field(A, \"b\")"] =
        .error "StopIteration" :=
  c7_unterminated_record [] [] "record(ai, \"W7\") \x7b" ["  field(A, \"b\")"]
    rfl (by decide) (by decide)

/-!  ### C3 — record header matching  -/

/-- C3 counterexample: for the line `record( ai, NAME)` the claim
demands the pair `("ai", "NAME")` (whitespace stripped from both
components), but the `r_type` capture of `RECORD_SIGNATURE` is raw
text, so the matcher produces `(" ai", "NAME")` — the type keeps its
leading space. -/
theorem c3_counterexample :
    RECORD_SIGNATURE_match "record( ai, NAME)" ≠ some ("ai", "NAME") ∧
      RECORD_SIGNATURE_match "record( ai, NAME)" = some (" ai", "NAME") := by
  refine ⟨by decide, by decide⟩

/-- `String.toList` of a built string. -/
theorem toList_mk (l : List Char) : (String.mk l).toList = l := rfl

/-- A whitespace character is not a comma. -/
theorem ne_comma_of_wsp (c : Char) (h : wsp c = true) : c ≠ ',' := by
  intro he
  rw [he] at h
  exact absurd h (by decide)

/-- Dropping while the predicate holds keeps a failing head. -/
theorem dropWhile_cons_of_false {p : Char → Bool} (c : Char) (l : List Char)
    (h : p c = false) : List.dropWhile p (c :: l) = c :: l := by
  rw [List.dropWhile_cons, h]
  simp

/-- A list whose last element fails the predicate does not vanish under
`dropWhile`. -/
theorem dropWhile_ne_nil_of_last {p : Char → Bool} :
    ∀ (l : List Char), l ≠ [] → (∀ c, l.getLast? = some c → p c = false) →
      List.dropWhile p l ≠ [] := by
  intro l
  induction l with
  | nil => intro h _; exact absurd rfl h
  | cons c cs ih =>
    intro _ hlast
    rw [List.dropWhile_cons]
    cases cs with
    | nil =>
      rw [hlast c (by simp)]
      simp
    | cons d ds =>
      by_cases hpc : p c = true
      · rw [if_pos hpc]
        exact ih (by simp) (fun x hx => hlast x (by rw [List.getLast?_cons_cons]; exact hx))
      · rw [if_neg hpc]
        simp

/-- `dropWhile` distributes over append when the left part does not
vanish. -/
theorem dropWhile_append_ne_nil {p : Char → Bool} :
    ∀ (l₁ l₂ : List Char), List.dropWhile p l₁ ≠ [] →
      List.dropWhile p (l₁ ++ l₂) = List.dropWhile p l₁ ++ l₂ := by
  intro l₁
  induction l₁ with
  | nil => intro l₂ h; exact absurd rfl h
  | cons c cs ih =>
    intro l₂ h
    rw [List.dropWhile_cons] at h
    cases hpc : p c with
    | true =>
      rw [hpc] at h
      simp only [if_pos rfl] at h
      rw [List.cons_append, List.dropWhile_cons, hpc, List.dropWhile_cons, hpc]
      simp only [if_pos rfl]
      exact ih l₂ h
    | false =>
      rw [List.cons_append, List.dropWhile_cons, hpc, List.dropWhile_cons, hpc]
      simp

/-- `\s*\)` succeeds at a whitespace-then-parenthesis head. -/
theorem headCloseParen_ws_close (ws r : List Char) (h : ws.all wsp = true) :
    headCloseParen (ws ++ ')' :: r) = true := by
  unfold headCloseParen
  rw [dropWhile_append_of_all ws _ (fun c hc => List.all_eq_true.mp h c hc),
    dropWhile_cons_of_false ')' r (by decide)]
  rfl

/-- `\s*\)` fails when the first non-whitespace character comes from a
name that contains no closing parenthesis. -/
theorem headCloseParen_in_name (l T : List Char) (hne : l ≠ [])
    (hlast : ∀ c, l.getLast? = some c → wsp c = false)
    (hnp : ∀ c ∈ l, c ≠ ')') :
    headCloseParen (l ++ T) = false := by
  unfold headCloseParen
  have h1 : List.dropWhile wsp l ≠ [] := dropWhile_ne_nil_of_last l hne hlast
  rw [dropWhile_append_ne_nil l T h1]
  cases h2 : List.dropWhile wsp l with
  | nil => exact absurd h2 h1
  | cons c r =>
    have hcmem : c ∈ l := by
      have hsub := List.dropWhile_sublist (l := l) (p := wsp)
      exact hsub.subset (by rw [h2]; simp)
    have hc : c ≠ ')' := hnp c hcmem
    rw [List.cons_append]
    split
    · rename_i heq
      injection heq with h3 _
      exact absurd h3 hc
    · rfl

/-- A comma-free list has no splits. -/
theorem commaSplitsAsc_nil (l : List Char) (h : ∀ c ∈ l, c ≠ ',') :
    commaSplitsAsc l = [] := by
  induction l with
  | nil => rfl
  | cons c cs ih =>
    simp [commaSplitsAsc, h c (by simp), ih (fun x hx => h x (by simp [hx]))]

/-- A list with exactly one comma (no newline before it) has exactly
one split, at that comma. -/
theorem commaSplitsAsc_single (ty rest : List Char)
    (hty : ∀ c ∈ ty, c ≠ ',' ∧ c ≠ '\n')
    (hrest : ∀ c ∈ rest, c ≠ ',') :
    commaSplitsAsc (ty ++ ',' :: rest) = [(ty, rest)] := by
  induction ty with
  | nil =>
    rw [List.nil_append]
    simp [commaSplitsAsc, commaSplitsAsc_nil rest hrest]
  | cons c cs ih =>
    have hc := hty c (by simp)
    rw [List.cons_append]
    simp [commaSplitsAsc, hc.1, hc.2, ih (fun x hx => hty x (by simp [hx]))]

/-- `rnameScan` closes immediately on whitespace followed by the
closing parenthesis. -/
theorem rnameScan_ws_close (ws r : List Char) (h : ws.all wsp = true) :
    rnameScan (ws ++ ')' :: r) = some [] := by
  have hhc : headCloseParen (ws ++ ')' :: r) = true := headCloseParen_ws_close ws r h
  cases ws with
  | nil =>
    rw [List.nil_append] at hhc ⊢
    rw [rnameScan, if_pos (by rw [hhc]; simp)]
  | cons w ws' =>
    rw [List.cons_append] at hhc ⊢
    rw [rnameScan, if_pos (by rw [hhc]; simp)]

/-- `rnameScan` closes immediately at a quote followed by whitespace
and the closing parenthesis (the greedy `"?` consumes the quote). -/
theorem rnameScan_quote_close (ws r : List Char) (h : ws.all wsp = true) :
    rnameScan ('"' :: (ws ++ ')' :: r)) = some [] := by
  rw [rnameScan, if_pos (by simp [headCloseParen_ws_close ws r h])]

/-- The lazy `(?P<r_name>.*?)` scan consumes an entire name (nonempty,
free of quote, closing parenthesis and newline, not ending in
whitespace) and then closes in the tail. -/
theorem rnameScan_through : ∀ (nm T : List Char), nm ≠ [] →
    (∀ c ∈ nm, c ≠ '"' ∧ c ≠ ')' ∧ c ≠ '\n') →
    (∀ c, nm.getLast? = some c → wsp c = false) →
    rnameScan T = some [] →
    rnameScan (nm ++ T) = some nm := by
  intro nm
  induction nm with
  | nil => intro T h _ _ _; exact absurd rfl h
  | cons c nm' ih =>
    intro T _ hc hlast hT
    obtain ⟨hq, hp, hn⟩ := hc c (by simp)
    have hclose : headCloseParen (c :: (nm' ++ T)) = false := by
      have := headCloseParen_in_name (c :: nm') T (by simp) hlast
        (fun x hx => (hc x hx).2.1)
      rw [List.cons_append] at this
      exact this
    rw [List.cons_append, rnameScan, if_neg (by simp [hq, hclose]), if_neg hn]
    cases nm' with
    | nil =>
      rw [List.nil_append, hT]
      rfl
    | cons d ds =>
      rw [ih T (by simp) (fun x hx => hc x (by simp [hx]))
        (fun c' hc' => hlast c' (by rw [List.getLast?_cons_cons]; exact hc')) hT]
      rfl

/-- The after-comma tail of `RECORD_SIGNATURE` on an unquoted name:
whitespace, the name, whitespace, the closing parenthesis. -/
theorem recTail_unquoted (ws3 nm ws4 r : List Char)
    (hws3 : ws3.all wsp = true) (hws4 : ws4.all wsp = true)
    (hnm : nm ≠ [])
    (hnmc : ∀ c ∈ nm, c ≠ '"' ∧ c ≠ ')' ∧ c ≠ '\n')
    (hh : wsp (nm.headD ' ') = false)
    (hlast : ∀ c, nm.getLast? = some c → wsp c = false) :
    recTail (ws3 ++ (nm ++ (ws4 ++ ')' :: r))) = some nm := by
  unfold recTail
  rw [dropWhile_append_of_all ws3 _ (fun c hc => List.all_eq_true.mp hws3 c hc)]
  cases nm with
  | nil => exact absurd rfl hnm
  | cons c nm' =>
    have hcw : wsp c = false := by simpa using hh
    rw [List.cons_append, dropWhile_cons_of_false c _ hcw]
    obtain ⟨hq, _, _⟩ := hnmc c (by simp)
    show (if c = '"' then
            (rnameScan (nm' ++ (ws4 ++ ')' :: r))).orElse
              (fun _ => rnameScan (c :: (nm' ++ (ws4 ++ ')' :: r))))
          else rnameScan (c :: (nm' ++ (ws4 ++ ')' :: r)))) = some (c :: nm')
    rw [if_neg hq]
    have := rnameScan_through (c :: nm') (ws4 ++ ')' :: r) (by simp) hnmc hlast
      (rnameScan_ws_close ws4 r hws4)
    rw [List.cons_append] at this
    exact this

/-- The after-comma tail of `RECORD_SIGNATURE` on a quoted name:
whitespace, quote, the name, quote, whitespace, the closing
parenthesis.  The greedy `"?` consumes the opening quote. -/
theorem recTail_quoted (ws3 nm ws4 r : List Char)
    (hws3 : ws3.all wsp = true) (hws4 : ws4.all wsp = true)
    (hnm : nm ≠ [])
    (hnmc : ∀ c ∈ nm, c ≠ '"' ∧ c ≠ ')' ∧ c ≠ '\n')
    (hlast : ∀ c, nm.getLast? = some c → wsp c = false) :
    recTail (ws3 ++ ('"' :: (nm ++ ('"' :: (ws4 ++ ')' :: r))))) = some nm := by
  unfold recTail
  rw [dropWhile_append_of_all ws3 _ (fun c hc => List.all_eq_true.mp hws3 c hc),
    dropWhile_cons_of_false '"' _ (by decide)]
  show ((rnameScan (nm ++ ('"' :: (ws4 ++ ')' :: r)))).orElse
      (fun _ => rnameScan ('"' :: (nm ++ ('"' :: (ws4 ++ ')' :: r)))))) = some nm
  rw [rnameScan_through nm ('"' :: (ws4 ++ ')' :: r)) hnm hnmc hlast
    (rnameScan_quote_close ws4 r hws4)]
  rfl

/-- C3 amended: for every line of the shape `record(TYPE, NAME)` or
`record(TYPE, "NAME")` with arbitrary surrounding whitespace (before
`record`, before the opening parenthesis, after the comma, before the
closing parenthesis, and after it), where TYPE is free of commas and
newlines and NAME is nonempty, free of quote, closing parenthesis,
comma and newline, and neither starts nor ends with whitespace, the
matcher produces the pair (TYPE2, NAME) where NAME has surrounding
whitespace and double quotes stripped but TYPE2 is the raw text between
the opening parenthesis and the comma — whitespace around the TYPE is
NOT stripped (see the counterexample). -/
theorem c3_record_header_amended
    (ws1 ws2 ws3 ws4 ws5 ty nm : List Char) (quoted : Bool)
    (hws1 : ws1.all wsp = true) (hws2 : ws2.all wsp = true)
    (hws3 : ws3.all wsp = true) (hws4 : ws4.all wsp = true)
    (hws5 : ws5.all wsp = true)
    (hty : ∀ c ∈ ty, c ≠ ',' ∧ c ≠ '\n')
    (hnm : nm ≠ [])
    (hnmc : ∀ c ∈ nm, c ≠ '"' ∧ c ≠ ')' ∧ c ≠ ',' ∧ c ≠ '\n')
    (hh : wsp (nm.headD ' ') = false)
    (hl : wsp (nm.getLastD ' ') = false) :
    RECORD_SIGNATURE_match (String.mk
      (ws1 ++ ("record".toList ++ (ws2 ++ ('(' :: (ty ++ (',' :: (ws3 ++ ((if quoted then '"' :: (nm ++ ['"']) else nm) ++ (ws4 ++ (')' :: ws5))))))))))) =
      some (String.mk ty, String.mk nm) := by
  have hlast : ∀ c, nm.getLast? = some c → wsp c = false := by
    intro c hc
    rw [List.getLastD_eq_getLast?, hc] at hl
    exact hl
  have hnmc3 : ∀ c ∈ nm, c ≠ '"' ∧ c ≠ ')' ∧ c ≠ '\n' :=
    fun c hc => ⟨(hnmc c hc).1, (hnmc c hc).2.1, (hnmc c hc).2.2.2⟩
  unfold RECORD_SIGNATURE_match
  simp only [toList_mk]
  rw [dropWhile_append_of_all ws1 _ (fun c hc => List.all_eq_true.mp hws1 c hc)]
  have e1 : (("record".toList ++ (ws2 ++ ('(' :: (ty ++ (',' :: (ws3 ++ ((if quoted then '"' :: (nm ++ ['"']) else nm) ++ (ws4 ++ (')' :: ws5))))))))) : List Char) =
      'r' :: ("ecord".toList ++ (ws2 ++ ('(' :: (ty ++ (',' :: (ws3 ++ ((if quoted then '"' :: (nm ++ ['"']) else nm) ++ (ws4 ++ (')' :: ws5))))))))) := rfl
  rw [e1, dropWhile_cons_of_false 'r' _ (by decide), ← e1]
  rw [if_pos (List.isPrefixOf_iff_prefix.mpr (List.prefix_append _ _))]
  rw [show (6 : Nat) = ("record".toList : List Char).length from rfl, List.drop_left,
    dropWhile_append_of_all ws2 _ (fun c hc => List.all_eq_true.mp hws2 c hc),
    dropWhile_cons_of_false '(' _ (by decide)]
  have hTAIL : ∀ c ∈ (ws3 ++ ((if quoted then '"' :: (nm ++ ['"']) else nm) ++ (ws4 ++ (')' :: ws5)))), c ≠ ',' := by
    intro c hc
    rcases List.mem_append.mp hc with h | h
    · exact ne_comma_of_wsp c (List.all_eq_true.mp hws3 c h)
    · rcases List.mem_append.mp h with h | h
      · cases quoted with
        | true =>
          simp only [if_pos rfl] at h
          rcases List.mem_cons.mp h with h | h
          · rw [h]; decide
          · rcases List.mem_append.mp h with h | h
            · exact (hnmc c h).2.2.1
            · rw [List.mem_singleton.mp h]; decide
        | false =>
          simp only [Bool.false_eq_true, if_false] at h
          exact (hnmc c h).2.2.1
      · rcases List.mem_append.mp h with h | h
        · exact ne_comma_of_wsp c (List.all_eq_true.mp hws4 c h)
        · rcases List.mem_cons.mp h with h | h
          · rw [h]; decide
          · exact ne_comma_of_wsp c (List.all_eq_true.mp hws5 c h)
  have hrt : recTail (ws3 ++ ((if quoted then '"' :: (nm ++ ['"']) else nm) ++ (ws4 ++ (')' :: ws5)))) = some nm := by
    cases quoted with
    | true =>
      simp only [eq_self_iff_true, if_true, List.cons_append, List.append_assoc,
        List.singleton_append]
      exact recTail_quoted ws3 nm ws4 ws5 hws3 hws4 hnm hnmc3 hlast
    | false =>
      simp only [Bool.false_eq_true, if_false]
      exact recTail_unquoted ws3 nm ws4 ws5 hws3 hws4 hnm hnmc3 hh hlast
  split
  case h_2 hno => exact (hno _ rfl).elim
  case h_1 s2 heq =>
  injection heq with _ h2
  subst h2
  rw [commaSplitsAsc_single ty _ hty hTAIL]
  rw [show ([(ty, (ws3 ++ ((if quoted then '"' :: (nm ++ ['"']) else nm) ++ (ws4 ++ (')' :: ws5)))))] : List (List Char × List Char)).reverse =
      [(ty, (ws3 ++ ((if quoted then '"' :: (nm ++ ['"']) else nm) ++ (ws4 ++ (')' :: ws5)))))] from rfl]
  rw [firstSplit, hrt]

/-- Witness for C3 amended: the line `record(ai, "NAME")` yields
the pair `("ai", "NAME")`. -/
theorem c3_record_header_amended_witness :
    RECORD_SIGNATURE_match (String.mk
      (([] : List Char) ++ ("record".toList ++ (([] : List Char) ++ ('(' :: ("ai".toList ++ (',' :: ([' '] ++ ((if true then '"' :: ("NAME".toList ++ ['"']) else "NAME".toList) ++ (([] : List Char) ++ (')' :: ([] : List Char)))))))))))) =
      some (String.mk "ai".toList, String.mk "NAME".toList) :=
  c3_record_header_amended [] [] [' '] [] [] "ai".toList "NAME".toList true
    (by decide) (by decide) (by decide) (by decide) (by decide)
    (by decide) (by decide) (by decide) (by decide) (by decide)

end EpicsArchiveConfig
